import Mathlib

/-!
Verification of the claude-stt daemon supervision protocol and hotkey
state machine, shallowly embedded from `src/claude_stt/hotkey.py` and
`src/claude_stt/daemon.py`.
-/

namespace ClaudeStt

/-! ## Hotkey state machine (`hotkey.py`)

Keys are modeled after the pynput key objects that reach
`HotkeyListener._normalize_key`: the side-independent modifier tokens,
their left/right variants, the named special keys used by the hotkey
normalization map, function keys, and character keys (`KeyCode.from_char`).
Platform virtual-key codes (the `vk` branch of `_normalize_key`) are not
modeled: they never arise from `HotKey.parse` on named/character tokens.
-/

inductive Key where
  | ctrl | ctrl_l | ctrl_r
  | shift | shift_l | shift_r
  | alt | alt_l | alt_r
  | cmd | cmd_l | cmd_r
  | space | enter | tab | esc
  | f (n : Nat)
  | char (c : Char)
deriving DecidableEq, Repr

/-- The callbacks the listener can enqueue (`_enqueue_event` labels). -/
inductive Emit where
  | start
  | stop
deriving DecidableEq, Repr

/-- The two interaction modes of `HotkeyListener`. -/
inductive Mode where
  | pushToTalk
  | toggle
deriving DecidableEq, Repr

/-- A raw key event delivered to `_on_press` / `_on_release`
(post-normalization: `_normalize_key` returned a key). -/
inductive KEvent where
  | press (k : Key)
  | release (k : Key)
deriving DecidableEq, Repr

/-- The listener's mutable state: `_pressed_keys`, `_hotkey_active`,
`_is_recording`. -/
structure HKState where
  pressed : Finset Key
  hotkeyActive : Bool
  isRecording : Bool
deriving DecidableEq

/-- Initial listener state (`__init__`): no keys pressed, inactive, not
recording. -/
def initState : HKState := ⟨∅, false, false⟩

/-- `HotkeyListener._on_press` (hotkey.py lines 206-232), returning the new
state and the list of enqueued callbacks. -/
def onPress (m : Mode) (hk : Finset Key) (s : HKState) (k : Key) :
    HKState × List Emit :=
  let pressed := insert k s.pressed
  if hk ⊆ pressed then
    if s.hotkeyActive then (⟨pressed, s.hotkeyActive, s.isRecording⟩, [])
    else
      match m with
      | .toggle =>
        if s.isRecording then (⟨pressed, true, false⟩, [.stop])
        else (⟨pressed, true, true⟩, [.start])
      | .pushToTalk =>
        if s.isRecording then (⟨pressed, true, s.isRecording⟩, [])
        else (⟨pressed, true, true⟩, [.start])
  else (⟨pressed, s.hotkeyActive, s.isRecording⟩, [])

/-- `HotkeyListener._on_release` (hotkey.py lines 234-249). -/
def onRelease (m : Mode) (hk : Finset Key) (s : HKState) (k : Key) :
    HKState × List Emit :=
  let pressed := s.pressed.erase k
  let active := if k ∈ hk then false else s.hotkeyActive
  if m = .pushToTalk ∧ s.isRecording = true ∧ k ∈ hk then
    (⟨pressed, active, false⟩, [.stop])
  else (⟨pressed, active, s.isRecording⟩, [])

/-- One input event dispatched to the matching handler. -/
def stepM (m : Mode) (hk : Finset Key) (s : HKState) : KEvent → HKState × List Emit
  | .press k => onPress m hk s k
  | .release k => onRelease m hk s k

/-- Run the listener over a list of events, collecting all enqueued
callbacks in order. -/
def runM (m : Mode) (hk : Finset Key) : HKState → List KEvent → HKState × List Emit
  | s, [] => (s, [])
  | s, e :: t =>
    let p := stepM m hk s e
    let q := runM m hk p.1 t
    (q.1, p.2 ++ q.2)

/-- A "full press of the combination": a press event that makes the pressed
set a superset of the combination while `_hotkey_active` is false (the
condition under which `_on_press` fires a transition). -/
def isTrigger (hk : Finset Key) (s : HKState) : KEvent → Bool
  | .press k => decide (hk ⊆ insert k s.pressed) && !s.hotkeyActive
  | .release _ => false

/-- Number of trigger events along a run. -/
def triggerCount (m : Mode) (hk : Finset Key) : HKState → List KEvent → Nat
  | _, [] => 0
  | s, e :: t =>
    (if isTrigger hk s e then 1 else 0) + triggerCount m hk (stepM m hk s e).1 t

/-- The strictly alternating start/stop emission sequence of given length,
beginning with `start` when the recording flag is false. -/
def altSeq : Bool → Nat → List Emit
  | _, 0 => []
  | b, n + 1 => (if b then .stop else .start) :: altSeq (!b) n

/-- Checks that an emission list strictly alternates, starting consistently
with the given recording flag. -/
def altOk (b : Bool) : List Emit → Bool
  | [] => true
  | e :: r =>
    if e = (if b then Emit.stop else Emit.start) then altOk (!b) r else false

/-- `HotkeyListener.stop` (hotkey.py lines 279-295), restricted to its
effect on the state machine's variables: clears the pressed set and resets
`_is_recording` to false. It enqueues only the `None` shutdown sentinel,
never a start/stop callback. -/
def listenerStop (s : HKState) : HKState × List Emit :=
  (⟨∅, s.hotkeyActive, false⟩, [])

/-- `HotkeyListener._enqueue_event` (hotkey.py lines 158-163):
`put_nowait` onto the bounded queue (`maxsize=8`); on `queue.Full` the
event is dropped with a warning. Returns the new queue and whether the
event was dropped. -/
def enqueueEvent (q : List (String × Emit)) (x : String × Emit) :
    List (String × Emit) × Bool :=
  if q.length < 8 then (q ++ [x], false) else (q, true)

/-! ### Step-shape lemmas -/

theorem toggle_step (hk : Finset Key) (s : HKState) (e : KEvent) :
    (stepM .toggle hk s e).2
        = (if isTrigger hk s e then
            [if s.isRecording then Emit.stop else Emit.start] else [])
      ∧ (stepM .toggle hk s e).1.isRecording
        = (if isTrigger hk s e then !s.isRecording else s.isRecording) := by
  cases e with
  | press k =>
    by_cases hsub : hk ⊆ insert k s.pressed
    · cases hact : s.hotkeyActive
      · cases hrec : s.isRecording <;>
          simp [stepM, onPress, isTrigger, hsub, hact, hrec]
      · cases hrec : s.isRecording <;>
          simp [stepM, onPress, isTrigger, hsub, hact, hrec]
    · simp [stepM, onPress, isTrigger, hsub]
  | release k =>
    by_cases hmem : k ∈ hk <;>
      cases hrec : s.isRecording <;>
        simp [stepM, onRelease, isTrigger, hmem, hrec]

theorem step_shape (m : Mode) (hk : Finset Key) (s : HKState) (e : KEvent) :
    ((stepM m hk s e).2 = [] ∧ (stepM m hk s e).1.isRecording = s.isRecording)
    ∨ ((stepM m hk s e).2 = [.start] ∧ s.isRecording = false
        ∧ (stepM m hk s e).1.isRecording = true)
    ∨ ((stepM m hk s e).2 = [.stop] ∧ s.isRecording = true
        ∧ (stepM m hk s e).1.isRecording = false) := by
  cases e with
  | press k =>
    by_cases hsub : hk ⊆ insert k s.pressed
    · cases hact : s.hotkeyActive
      · cases m <;> cases hrec : s.isRecording <;>
          simp [stepM, onPress, hsub, hact, hrec]
      · simp [stepM, onPress, hsub, hact]
    · simp [stepM, onPress, hsub]
  | release k =>
    cases m <;> by_cases hmem : k ∈ hk <;>
      cases hrec : s.isRecording <;>
        simp [stepM, onRelease, hmem, hrec]

/-! ### Toggle-mode emission characterization -/

theorem toggle_run_emits (hk : Finset Key) :
    ∀ (t : List KEvent) (s : HKState),
      (runM .toggle hk s t).2
        = altSeq s.isRecording (triggerCount .toggle hk s t) := by
  intro t
  induction t with
  | nil => intro s; rfl
  | cons e t ih =>
    intro s
    have h2 := (toggle_step hk s e).1
    have h1 := (toggle_step hk s e).2
    show (stepM .toggle hk s e).2
        ++ (runM .toggle hk (stepM .toggle hk s e).1 t).2
      = altSeq s.isRecording (triggerCount .toggle hk s (e :: t))
    rw [ih, h1, h2, triggerCount]
    cases htr : isTrigger hk s e <;> cases hrec : s.isRecording <;>
      simp [altSeq, Nat.add_comm]

/-! ### Push-to-talk invariants -/

/-- Invariant of the listener state reachable in push-to-talk mode:
`_hotkey_active` tracks exactly "the combination is fully held", and the
recording flag implies the combination is active. -/
def pttInv (hk : Finset Key) (s : HKState) : Prop :=
  s.hotkeyActive = decide (hk ⊆ s.pressed)
    ∧ (s.isRecording = true → s.hotkeyActive = true)

theorem pttInv_initState (hk : Finset Key) (hne : hk.Nonempty) :
    pttInv hk initState := by
  constructor
  · show false = decide (hk ⊆ (∅ : Finset Key))
    have hns : ¬ hk ⊆ (∅ : Finset Key) := by
      intro h
      rcases hne with ⟨x, hx⟩
      exact absurd (h hx) (Finset.not_mem_empty x)
    simp [hns]
  · intro h
    exact absurd h (by decide)

theorem pttInv_step (hk : Finset Key) (s : HKState) (e : KEvent)
    (hInv : pttInv hk s) : pttInv hk (stepM .pushToTalk hk s e).1 := by
  obtain ⟨hact, hri⟩ := hInv
  cases e with
  | press k =>
    by_cases hsub : hk ⊆ insert k s.pressed
    · cases hhact : s.hotkeyActive
      · cases hrec : s.isRecording
        · have hs : (stepM .pushToTalk hk s (.press k)).1
              = ⟨insert k s.pressed, true, true⟩ := by
            simp [stepM, onPress, hsub, hhact, hrec]
          rw [hs]
          exact ⟨by simp [hsub], fun _ => rfl⟩
        · have := hri hrec
          rw [hhact] at this
          exact absurd this (by decide)
      · have hs : (stepM .pushToTalk hk s (.press k)).1
            = ⟨insert k s.pressed, s.hotkeyActive, s.isRecording⟩ := by
          simp [stepM, onPress, hsub, hhact]
        rw [hs]
        exact ⟨by simp [hhact, hsub], fun _ => by simp [hhact]⟩
    · have hnotsub : ¬ hk ⊆ s.pressed :=
        fun hcon => hsub (hcon.trans (Finset.subset_insert k s.pressed))
      have hs : (stepM .pushToTalk hk s (.press k)).1
          = ⟨insert k s.pressed, s.hotkeyActive, s.isRecording⟩ := by
        simp [stepM, onPress, hsub]
      rw [hs]
      refine ⟨?_, fun hr => hri hr⟩
      show s.hotkeyActive = decide (hk ⊆ insert k s.pressed)
      rw [hact]
      simp [hnotsub, hsub]
  | release k =>
    by_cases hmem : k ∈ hk
    · have hns : ¬ hk ⊆ s.pressed.erase k :=
        fun hcon => absurd (hcon hmem) (Finset.not_mem_erase k s.pressed)
      cases hrec : s.isRecording
      · have hs : (stepM .pushToTalk hk s (.release k)).1
            = ⟨s.pressed.erase k, false, s.isRecording⟩ := by
          simp [stepM, onRelease, hmem, hrec]
        rw [hs]
        exact ⟨by simp [hns], fun hr => by rw [hrec] at hr; cases hr⟩
      · have hs : (stepM .pushToTalk hk s (.release k)).1
            = ⟨s.pressed.erase k, false, false⟩ := by
          simp [stepM, onRelease, hmem, hrec]
        rw [hs]
        exact ⟨by simp [hns], fun hr => by cases hr⟩
    · have hiff : (hk ⊆ s.pressed.erase k) ↔ (hk ⊆ s.pressed) := by
        rw [Finset.subset_erase]
        exact ⟨fun h => h.1, fun h => ⟨h, fun hc => hmem hc⟩⟩
      have hs : (stepM .pushToTalk hk s (.release k)).1
          = ⟨s.pressed.erase k, s.hotkeyActive, s.isRecording⟩ := by
        simp [stepM, onRelease, hmem]
      rw [hs]
      refine ⟨?_, fun hr => hri hr⟩
      show s.hotkeyActive = decide (hk ⊆ s.pressed.erase k)
      rw [hact]
      exact (decide_eq_decide.mpr hiff).symm

theorem pttInv_run (hk : Finset Key) :
    ∀ (t : List KEvent) (s : HKState), pttInv hk s →
      pttInv hk (runM .pushToTalk hk s t).1 := by
  intro t
  induction t with
  | nil => intro s h; exact h
  | cons e t ih =>
    intro s h
    exact ih _ (pttInv_step hk s e h)

theorem ptt_altOk (hk : Finset Key) :
    ∀ (t : List KEvent) (s : HKState),
      altOk s.isRecording (runM .pushToTalk hk s t).2 = true := by
  intro t
  induction t with
  | nil => intro s; rfl
  | cons e t ih =>
    intro s
    show altOk s.isRecording
        ((stepM .pushToTalk hk s e).2
          ++ (runM .pushToTalk hk (stepM .pushToTalk hk s e).1 t).2) = true
    have hih := ih (stepM .pushToTalk hk s e).1
    rcases step_shape .pushToTalk hk s e with ⟨h2, h1⟩ | ⟨h2, hrec, h1⟩
      | ⟨h2, hrec, h1⟩
    · rw [h1] at hih
      rw [h2, List.nil_append]
      exact hih
    · rw [h1] at hih
      rw [h2, hrec, List.cons_append, List.nil_append]
      simpa [altOk] using hih
    · rw [h1] at hih
      rw [h2, hrec, List.cons_append, List.nil_append]
      simpa [altOk] using hih

theorem ptt_press_start_iff (hk : Finset Key) (s : HKState)
    (hInv : pttInv hk s) (k : Key) :
    (stepM .pushToTalk hk s (.press k)).2 = [Emit.start]
      ↔ (¬ hk ⊆ s.pressed ∧ hk ⊆ insert k s.pressed
          ∧ s.isRecording = false) := by
  obtain ⟨hact, hri⟩ := hInv
  by_cases hsub : hk ⊆ insert k s.pressed
  · cases hhact : s.hotkeyActive
    · have hd : decide (hk ⊆ s.pressed) = false := by rw [← hact, hhact]
      have hnotsub : ¬ hk ⊆ s.pressed := of_decide_eq_false hd
      cases hrec : s.isRecording
      · simp [stepM, onPress, hsub, hhact, hrec, hnotsub]
      · have := hri hrec
        rw [hhact] at this
        exact absurd this (by decide)
    · have hd : decide (hk ⊆ s.pressed) = true := by rw [← hact, hhact]
      have hsubp : hk ⊆ s.pressed := of_decide_eq_true hd
      simp [stepM, onPress, hsub, hhact, hsubp]
  · have hnotsub : ¬ hk ⊆ s.pressed :=
      fun hcon => hsub (hcon.trans (Finset.subset_insert k s.pressed))
    simp [stepM, onPress, hsub]

theorem ptt_release_stop_iff (hk : Finset Key) (s : HKState) (k : Key) :
    (stepM .pushToTalk hk s (.release k)).2 = [Emit.stop]
      ↔ (k ∈ hk ∧ s.isRecording = true) := by
  by_cases hmem : k ∈ hk <;> cases hrec : s.isRecording <;>
    simp [stepM, onRelease, hmem, hrec]

/-! ### Claim theorems for the hotkey state machine -/

/-- Claim C1: in toggle mode, over every event interleaving the enqueued
callbacks are exactly the alternating start/stop sequence indexed by the
"full press" trigger events; a trace with two triggers (full press, member
release, full press again) yields exactly one `start` then one `stop`;
every trigger step enqueues exactly one callback and every non-trigger
step none; and a repeat press while `_hotkey_active` is already true
enqueues nothing. -/
theorem c1_toggle_exactly_one_start_stop (hk : Finset Key) :
    (∀ t : List KEvent,
        (runM .toggle hk initState t).2
          = altSeq false (triggerCount .toggle hk initState t))
    ∧ (∀ t : List KEvent, triggerCount .toggle hk initState t = 2 →
        (runM .toggle hk initState t).2 = [Emit.start, Emit.stop])
    ∧ (∀ (s : HKState) (e : KEvent),
        (stepM .toggle hk s e).2.length
          = (if isTrigger hk s e then 1 else 0))
    ∧ (∀ (s : HKState) (k : Key), s.hotkeyActive = true →
        (stepM .toggle hk s (.press k)).2 = []) := by
  refine ⟨fun t => toggle_run_emits hk t initState,
    fun t ht => ?_, fun s e => ?_, fun s k hact => ?_⟩
  · rw [toggle_run_emits hk t initState, ht]
    rfl
  · rw [(toggle_step hk s e).1]
    cases htr : isTrigger hk s e <;> simp
  · by_cases hsub : hk ⊆ insert k s.pressed <;>
      simp [stepM, onPress, hsub, hact]

/-- Concrete toggle-mode scenario for C1: press ctrl, shift, space (start),
auto-repeat space (nothing), release space, press space (stop). -/
def c1Trace : List KEvent :=
  [.press .ctrl, .press .shift, .press .space, .press .space,
   .release .space, .press .space]

theorem c1_witness :
    triggerCount .toggle {Key.ctrl, Key.shift, Key.space} initState c1Trace = 2
    ∧ (runM .toggle {Key.ctrl, Key.shift, Key.space} initState c1Trace).2
        = [Emit.start, Emit.stop]
    ∧ (stepM .toggle {Key.ctrl, Key.shift, Key.space}
        ⟨{Key.ctrl, Key.shift, Key.space}, true, true⟩ (.press Key.space)).2 = [] :=
  ⟨by decide,
   (c1_toggle_exactly_one_start_stop {Key.ctrl, Key.shift, Key.space}).2.1
     c1Trace (by decide),
   (c1_toggle_exactly_one_start_stop {Key.ctrl, Key.shift, Key.space}).2.2.2
     ⟨{Key.ctrl, Key.shift, Key.space}, true, true⟩ Key.space rfl⟩

/-- Claim C2: in push-to-talk mode, over every event sequence from the
initial state the enqueued callbacks strictly alternate starting with
`start`; a press enqueues `start` exactly when the pressed set first
becomes a superset of the combination while the recording flag is false;
and a release enqueues `stop` exactly when a member key of the combination
is released while recording, regardless of which other keys remain held. -/
theorem c2_ptt_start_stop_characterization (hk : Finset Key)
    (hne : hk.Nonempty) :
    (∀ t : List KEvent,
        altOk false (runM .pushToTalk hk initState t).2 = true)
    ∧ (∀ (t : List KEvent) (k : Key),
        (stepM .pushToTalk hk (runM .pushToTalk hk initState t).1
            (.press k)).2 = [Emit.start]
          ↔ (¬ hk ⊆ (runM .pushToTalk hk initState t).1.pressed
              ∧ hk ⊆ insert k (runM .pushToTalk hk initState t).1.pressed
              ∧ (runM .pushToTalk hk initState t).1.isRecording = false))
    ∧ (∀ (s : HKState) (k : Key),
        (stepM .pushToTalk hk s (.release k)).2 = [Emit.stop]
          ↔ (k ∈ hk ∧ s.isRecording = true)) := by
  refine ⟨fun t => ptt_altOk hk t initState, fun t k => ?_,
    fun s k => ptt_release_stop_iff hk s k⟩
  exact ptt_press_start_iff hk _
    (pttInv_run hk t initState (pttInv_initState hk hne)) k

theorem c2_witness :
    altOk false (runM .pushToTalk {Key.ctrl} initState
        [.press .ctrl, .release .ctrl, .press .ctrl]).2 = true
    ∧ ((stepM .pushToTalk {Key.ctrl} (runM .pushToTalk {Key.ctrl} initState []).1
          (.press Key.ctrl)).2 = [Emit.start]
        ↔ (¬ ({Key.ctrl} : Finset Key) ⊆ (runM .pushToTalk {Key.ctrl} initState []).1.pressed
            ∧ ({Key.ctrl} : Finset Key) ⊆ insert Key.ctrl (runM .pushToTalk {Key.ctrl} initState []).1.pressed
            ∧ (runM .pushToTalk {Key.ctrl} initState []).1.isRecording = false)) :=
  ⟨(c2_ptt_start_stop_characterization {Key.ctrl}
      ⟨Key.ctrl, by decide⟩).1 _,
   (c2_ptt_start_stop_characterization {Key.ctrl}
      ⟨Key.ctrl, by decide⟩).2.1 [] Key.ctrl⟩

/-- Claim C9 (amended): every press/release transition changes
`_is_recording` only together with exactly one enqueued callback (`start`
when it becomes true, `stop` when it becomes false), but
`HotkeyListener.stop` additionally resets `_is_recording` to false without
enqueuing any callback. -/
theorem c9_recording_mutation_callbacks :
    (∀ (m : Mode) (hk : Finset Key) (s : HKState) (e : KEvent),
        ((stepM m hk s e).1.isRecording = s.isRecording →
            (stepM m hk s e).2 = [])
        ∧ (s.isRecording = false → (stepM m hk s e).1.isRecording = true →
            (stepM m hk s e).2 = [Emit.start])
        ∧ (s.isRecording = true → (stepM m hk s e).1.isRecording = false →
            (stepM m hk s e).2 = [Emit.stop]))
    ∧ (∀ s : HKState,
        (listenerStop s).1.isRecording = false ∧ (listenerStop s).2 = []) := by
  refine ⟨fun m hk s e => ?_, fun s => ⟨rfl, rfl⟩⟩
  rcases step_shape m hk s e with ⟨h2, h1⟩ | ⟨h2, hrec, h1⟩ | ⟨h2, hrec, h1⟩
  · refine ⟨fun _ => h2, fun ha hb => ?_, fun ha hb => ?_⟩
    · rw [h1, ha] at hb
      exact absurd hb (by decide)
    · rw [h1, ha] at hb
      exact absurd hb (by decide)
  · refine ⟨fun hu => ?_, fun _ _ => h2, fun ha _ => ?_⟩
    · rw [h1, hrec] at hu
      exact absurd hu (by decide)
    · rw [hrec] at ha
      exact absurd ha (by decide)
  · refine ⟨fun hu => ?_, fun ha _ => ?_, fun _ _ => h2⟩
    · rw [h1, hrec] at hu
      exact absurd hu (by decide)
    · rw [hrec] at ha
      exact absurd ha (by decide)

theorem c9_witness :
    (stepM .pushToTalk {Key.ctrl} ⟨{Key.ctrl}, true, true⟩
        (.release Key.ctrl)).1.isRecording = false
    ∧ (stepM .pushToTalk {Key.ctrl} ⟨{Key.ctrl}, true, true⟩
        (.release Key.ctrl)).2 = [Emit.stop] :=
  ⟨by decide,
   (c9_recording_mutation_callbacks.1 .pushToTalk {Key.ctrl}
      ⟨{Key.ctrl}, true, true⟩ (.release Key.ctrl)).2.2 rfl (by decide)⟩

/-- Counterexample to C9 as stated: after a full press in push-to-talk
mode the recording flag is true, and `HotkeyListener.stop` then resets it
to false while enqueuing no callback at all. -/
theorem c9_counterexample :
    (runM .pushToTalk {Key.ctrl} initState [.press .ctrl]).1.isRecording = true
    ∧ (listenerStop
        (runM .pushToTalk {Key.ctrl} initState [.press .ctrl]).1).1.isRecording
        = false
    ∧ (listenerStop
        (runM .pushToTalk {Key.ctrl} initState [.press .ctrl]).1).2 = [] :=
  ⟨by decide, rfl, rfl⟩

/-- Claim C10: `_enqueue_event` never blocks: with free space the event is
appended in FIFO order; at capacity (8) the arriving event is dropped and
the queue is unchanged. -/
theorem c10_enqueue_bounded_drop :
    ∀ (q : List (String × Emit)) (x : String × Emit),
      (q.length < 8 → enqueueEvent q x = (q ++ [x], false))
      ∧ (8 ≤ q.length → enqueueEvent q x = (q, true)) := by
  intro q x
  constructor
  · intro h
    simp [enqueueEvent, h]
  · intro h
    have hn : ¬ q.length < 8 := Nat.not_lt.mpr h
    simp [enqueueEvent, hn]

theorem c10_witness :
    enqueueEvent [("start", Emit.start)] ("stop", Emit.stop)
        = ([("start", Emit.start), ("stop", Emit.stop)], false)
    ∧ enqueueEvent (List.replicate 8 ("e", Emit.start)) ("x", Emit.stop)
        = (List.replicate 8 ("e", Emit.start), true) :=
  ⟨(c10_enqueue_bounded_drop _ _).1 (by decide),
   (c10_enqueue_bounded_drop _ _).2 (by decide)⟩

/-! ## Process registry (`daemon.py`)

The registry file's content is modeled at the level at which
`_read_pid_file` inspects it: the raw text together with what `json.loads`
returns on it (`none` when it raises). JSON values are modeled as Python
scalars; composite or float values, which `int()` rejects or which never
flow into `int()`, are collapsed into the opaque `vother`. -/

/-- A Python value that can appear inside the JSON record. -/
inductive PyVal where
  | vnull
  | vbool (b : Bool)
  | vint (n : Int)
  | vstr (s : String)
  | vother
deriving DecidableEq, Repr

/-- The result of `json.loads`: a dict or a non-dict value. -/
inductive PyObj where
  | pdict (kvs : List (String × PyVal))
  | pval (v : PyVal)
deriving DecidableEq, Repr

/-- The observable state of the registry (PID) file. `content raw parsed`
carries the file text and the result of `json.loads` on it (none when it
raises). -/
inductive RegFile where
  | missing
  | unreadable
  | content (raw : String) (parsed : Option PyObj)
deriving DecidableEq, Repr

/-- The record `_read_pid_file` returns: the coerced pid plus the dict
contents. -/
structure RegEntry where
  pid : Int
  fields : List (String × PyVal)
deriving DecidableEq, Repr

/-- Models Python's `not s.strip()`: true iff the string is empty or all
whitespace. -/
def isBlankStr (s : String) : Bool :=
  s.toList.all Char.isWhitespace

/-- Models Python `int(s)` on a string: surrounding whitespace stripped,
optional sign, decimal digits. -/
def pyIntString (s : String) : Option Int :=
  let cs := ((s.toList.dropWhile Char.isWhitespace).reverse.dropWhile
      Char.isWhitespace).reverse
  match cs with
  | [] => none
  | c :: rest =>
    let p := if c = '-' ∨ c = '+' then rest else c :: rest
    if p ≠ [] ∧ p.all Char.isDigit then
      let n : Nat := p.foldl (fun a d => a * 10 + (d.toNat - 48)) 0
      some (if c = '-' then -(n : Int) else (n : Int))
    else none

/-- Models Python `int(v)` on a JSON value. -/
def pyIntVal : PyVal → Option Int
  | .vint n => some n
  | .vstr s => pyIntString s
  | .vbool b => some (if b then 1 else 0)
  | .vnull => none
  | .vother => none

/-- Models `data["pid"] = pid` on the parsed dict. -/
def setPid (kvs : List (String × PyVal)) (n : Int) : List (String × PyVal) :=
  kvs.map (fun kv => if kv.1 = "pid" then (kv.1, PyVal.vint n) else kv)

/-- `_read_pid_file` (daemon.py lines 38-62): none for a missing or
unreadable or blank file; for valid JSON, coerce `data.get("pid", "")` via
`int()` and return the dict; otherwise (or when that coercion fails) fall
back to `int(raw)` as a bare legacy PID; any failure is none, never an
error. -/
def readPidFile : RegFile → Option RegEntry
  | .missing => none
  | .unreadable => none
  | .content raw parsed =>
    if isBlankStr raw then none
    else
      match parsed with
      | some (.pdict kvs) =>
        match pyIntVal (((kvs.lookup "pid").getD (.vstr ""))) with
        | some n => some ⟨n, setPid kvs n⟩
        | none => (pyIntString raw).map fun n => ⟨n, [("pid", .vint n)]⟩
      | _ => (pyIntString raw).map fun n => ⟨n, [("pid", .vint n)]⟩

/-- The serialized text `_write_pid_file` produces via `json.dumps`
(string escaping elided; only non-blankness of this text matters to
`_read_pid_file`, which takes the structured branch on it). -/
def dumpsEntry (pid : Int) (cmd : String) (ts : Int) (dir : String) : String :=
  "\x7b\"pid\": " ++ toString pid ++ ", \"command\": \"" ++ cmd
    ++ "\", \"created_at\": " ++ toString ts ++ ", \"config_dir\": \""
    ++ dir ++ "\"\x7d"

/-- The registry file as `_write_pid_file` leaves it: the dumped record,
which `json.loads` parses back to the dict (`created_at` is a float,
collapsed to `vother`). -/
def writtenFile (pid : Int) (cmd : String) (ts : Int) (dir : String) :
    RegFile :=
  .content (dumpsEntry pid cmd ts dir)
    (some (.pdict [("pid", .vint pid), ("command", .vstr cmd),
      ("created_at", .vother), ("config_dir", .vstr dir)]))

theorem isBlankStr_dumpsEntry (pid : Int) (cmd : String) (ts : Int)
    (dir : String) : isBlankStr (dumpsEntry pid cmd ts dir) = false := by
  simp only [isBlankStr, dumpsEntry, String.toList, String.data_append,
    List.all_append]
  have h : (['\x7b', '\"', 'p', 'i', 'd', '\"', ':', ' '].all
      Char.isWhitespace) = false := by decide
  simp [h]

/-- Claim C7: reading back a written registry file yields the written pid;
read returns none on a missing, unreadable, or blank file; a bare-integer
file yields the minimal record; valid-JSON dicts with an
integer-convertible pid yield the structured record with the coerced pid;
and corrupt content (unparseable JSON, no integer fallback) yields none.
`_read_pid_file` is total in this model, so it never raises. -/
theorem c7_registry_read_total_roundtrip :
    (∀ (pid : Int) (cmd : String) (ts : Int) (dir : String),
        ∃ e : RegEntry, readPidFile (writtenFile pid cmd ts dir) = some e
          ∧ e.pid = pid)
    ∧ readPidFile .missing = none
    ∧ readPidFile .unreadable = none
    ∧ (∀ (raw : String) (p : Option PyObj), isBlankStr raw = true →
        readPidFile (.content raw p) = none)
    ∧ (∀ (raw : String) (v : PyVal) (n : Int), isBlankStr raw = false →
        pyIntString raw = some n →
        readPidFile (.content raw (some (.pval v))) = some ⟨n, [("pid", .vint n)]⟩)
    ∧ (∀ (raw : String) (kvs : List (String × PyVal)) (n : Int),
        isBlankStr raw = false →
        pyIntVal ((kvs.lookup "pid").getD (.vstr "")) = some n →
        readPidFile (.content raw (some (.pdict kvs))) = some ⟨n, setPid kvs n⟩)
    ∧ (∀ raw : String, isBlankStr raw = false → pyIntString raw = none →
        readPidFile (.content raw none) = none) := by
  refine ⟨fun pid cmd ts dir => ?_, rfl, rfl, fun raw p hb => ?_,
    fun raw v n hb hint => ?_, fun raw kvs n hb hint => ?_,
    fun raw hb hint => ?_⟩
  · refine ⟨⟨pid, setPid [("pid", .vint pid), ("command", .vstr cmd),
      ("created_at", .vother), ("config_dir", .vstr dir)] pid⟩, ?_, rfl⟩
    simp [readPidFile, writtenFile, isBlankStr_dumpsEntry, pyIntVal,
      List.lookup]
  · simp [readPidFile, hb]
  · simp [readPidFile, hb, hint]
  · simp [readPidFile, hb, hint]
  · simp [readPidFile, hb, hint]

theorem c7_witness :
    (∃ e : RegEntry,
        readPidFile (writtenFile 4321 "python -m claude_stt.daemon run" 17
          "/home/u/.config/claude-stt") = some e ∧ e.pid = 4321)
    ∧ readPidFile (.content "  " none) = none
    ∧ readPidFile (.content "4321" (some (.pval (.vint 4321))))
        = some ⟨4321, [("pid", .vint 4321)]⟩
    ∧ readPidFile (.content "\x7b\"pid\": \"77\"\x7d"
        (some (.pdict [("pid", .vstr "77")])))
        = some ⟨77, setPid [("pid", .vstr "77")] 77⟩
    ∧ readPidFile (.content "not json at all" none) = none :=
  ⟨(c7_registry_read_total_roundtrip).1 4321 "python -m claude_stt.daemon run"
      17 "/home/u/.config/claude-stt",
   (c7_registry_read_total_roundtrip).2.2.2.1 "  " none (by decide),
   (c7_registry_read_total_roundtrip).2.2.2.2.1 "4321" (.vint 4321) 4321
      (by decide) (by decide),
   (c7_registry_read_total_roundtrip).2.2.2.2.2.1 "\x7b\"pid\": \"77\"\x7d"
      [("pid", .vstr "77")] 77 (by decide) (by decide),
   (c7_registry_read_total_roundtrip).2.2.2.2.2.2 "not json at all"
      (by decide) (by decide)⟩

/-! ## `_write_pid_file` (daemon.py lines 65-90)

Filesystem faults are injected per primitive operation. `obs` records the
registry file's content observable by a concurrent reader after each
primitive step (mkdir, temp-file creation, temp write, rename): the
registry path itself is only ever changed by the atomic `os.replace`. The
`finally` block removes the temp file best-effort; exceptions propagate to
the caller (there is no `except` clause). -/

structure WriteEnv where
  mkdirOk : Bool
  createOk : Bool
  writeOk : Bool
  replaceOk : Bool
deriving DecidableEq, Repr

structure WriteRes where
  raised : Bool
  registry : RegFile
  obs : List RegFile
deriving DecidableEq, Repr

def writePidFile (env : WriteEnv) (old : RegFile) (pid : Int) (cmd : String)
    (ts : Int) (dir : String) : WriteRes :=
  if env.mkdirOk = false then ⟨true, old, [old]⟩
  else if env.createOk = false then ⟨true, old, [old, old]⟩
  else if env.writeOk = false then ⟨true, old, [old, old, old]⟩
  else if env.replaceOk = false then ⟨true, old, [old, old, old, old]⟩
  else ⟨false, writtenFile pid cmd ts dir,
    [old, old, old, writtenFile pid cmd ts dir]⟩

/-- Claim C6 (amended): `_write_pid_file` writes the serialized entry to a
temp file in the registry directory and installs it by one atomic rename,
so every observable registry state is either the old content or the
complete new record, never a partial write; it succeeds exactly when every
filesystem step succeeds; but a filesystem error is not swallowed: the
exception propagates to the caller and the registry is left unchanged. -/
theorem c6_write_atomic_raises (env : WriteEnv) (old : RegFile) (pid : Int)
    (cmd : String) (ts : Int) (dir : String) :
    (∀ o ∈ (writePidFile env old pid cmd ts dir).obs,
        o = old ∨ o = writtenFile pid cmd ts dir)
    ∧ ((writePidFile env old pid cmd ts dir).raised = false
        ↔ (env.mkdirOk = true ∧ env.createOk = true ∧ env.writeOk = true
            ∧ env.replaceOk = true))
    ∧ ((writePidFile env old pid cmd ts dir).raised = false →
        (writePidFile env old pid cmd ts dir).registry
          = writtenFile pid cmd ts dir)
    ∧ ((writePidFile env old pid cmd ts dir).raised = true →
        (writePidFile env old pid cmd ts dir).registry = old) := by
  obtain ⟨m, c, w, r⟩ := env
  cases m <;> cases c <;> cases w <;> cases r <;>
    simp [writePidFile]

theorem c6_witness :
    (∀ o ∈ (writePidFile ⟨true, true, true, true⟩ .missing 9 "cmd" 3 "/d").obs,
        o = RegFile.missing ∨ o = writtenFile 9 "cmd" 3 "/d")
    ∧ (writePidFile ⟨true, true, true, true⟩ .missing 9 "cmd" 3 "/d").registry
        = writtenFile 9 "cmd" 3 "/d"
    ∧ (writePidFile ⟨true, true, false, true⟩ .missing 9 "cmd" 3 "/d").registry
        = RegFile.missing :=
  ⟨(c6_write_atomic_raises ⟨true, true, true, true⟩ .missing 9 "cmd" 3 "/d").1,
   (c6_write_atomic_raises ⟨true, true, true, true⟩ .missing 9 "cmd" 3
      "/d").2.2.1 rfl,
   (c6_write_atomic_raises ⟨true, true, false, true⟩ .missing 9 "cmd" 3
      "/d").2.2.2 rfl⟩

/-- Counterexample to C6 as stated: when the temp-file write fails,
`_write_pid_file` raises to its caller (there is no `except` clause), so
it does not "fail silently-logged". -/
theorem c6_counterexample :
    (writePidFile ⟨true, true, false, true⟩ .missing 9 "cmd" 3 "/d").raised
      = true := rfl

/-! ## Daemon control commands (`daemon.py`)

The OS is abstracted by fault-injection functions: the result of the
`os.kill(pid, 0)` existence probe, the process command line visible via
`_get_process_command`, the results of sending SIGTERM / SIGUSR1, and the
probe during `stop_daemon`'s 50-iteration wait loop. POSIX (`os.name !=
"nt"`) is the modeled platform. `PermissionError` during a bare existence
probe is folded into the probe result per `_pid_exists` (perm counts as
exists). -/

inductive Probe where
  | ok
  | perm
  | gone
deriving DecidableEq, Repr

inductive SigResult where
  | ok
  | perm
  | err
deriving DecidableEq, Repr

structure OSEnv where
  probe : Int → Probe
  cmdOf : Int → Option String
  termSig : Int → SigResult
  usr1Sig : Int → SigResult
  poll : Nat → Int → Probe
  hasSIGUSR1 : Bool

/-- `pat` is a prefix of `s` (helper for the substring test). -/
def isPre : List Char → List Char → Bool
  | [], _ => true
  | _ :: _, [] => false
  | p :: ps, c :: cs => p = c && isPre ps cs

/-- Python's `pat in s` substring test on characters. -/
def listContains : List Char → List Char → Bool
  | [], pat => decide (pat = [])
  | c :: cs, pat => isPre pat (c :: cs) || listContains cs pat

/-- Substring test used for the `"claude-stt" in command` checks. -/
def strContains (s pat : String) : Bool :=
  listContains s.toList pat.toList

/-- `_pid_exists` (daemon.py lines 198-209): nonpositive pids do not
exist; a permission-denied probe counts as existing. -/
def pidExists (env : OSEnv) (pid : Int) : Bool :=
  if pid ≤ 0 then false
  else
    match env.probe pid with
    | .gone => false
    | _ => true

/-- `_pid_exists` as called during `stop_daemon`'s wait loop, at poll
iteration `i`. -/
def pollExists (env : OSEnv) (i : Nat) (pid : Int) : Bool :=
  if pid ≤ 0 then false
  else
    match env.poll i pid with
    | .gone => false
    | _ => true

/-- The identity check of `is_daemon_running` / `_pid_looks_like_claude_stt`. -/
def looksLikeClaudeStt (c : String) : Bool :=
  strContains c "claude-stt" || strContains c "claude_stt"

/-- `is_daemon_running` (daemon.py lines 93-123), returning the verdict
and the registry file afterwards (it unlinks stale entries). -/
def isDaemonRunning (env : OSEnv) (f : RegFile) : Bool × RegFile :=
  match readPidFile f with
  | none => (false, f)
  | some e =>
    if e.pid ≤ 0 then (false, .missing)
    else if pidExists env e.pid = false then (false, .missing)
    else
      match env.cmdOf e.pid with
      | none => (true, f)
      | some c =>
        if looksLikeClaudeStt c then (true, f) else (false, .missing)

inductive StartOutcome where
  | alreadyRunning
  | started
deriving DecidableEq, Repr

/-- `start_daemon` (daemon.py lines 269-292) up to registration: no-op if
a live daemon is registered, otherwise proceed (write own registry entry
and run the daemon loop). -/
def startDaemon (env : OSEnv) (f : RegFile) (selfPid : Int) (cmd : String)
    (ts : Int) (dir : String) : RegFile × StartOutcome :=
  let r := isDaemonRunning env f
  if r.1 then (r.2, .alreadyRunning)
  else (writtenFile selfPid cmd ts dir, .started)

inductive ToggleOutcome where
  | notRunning
  | sent
  | permDenied
  | sendFailed
deriving DecidableEq, Repr

/-- `toggle_recording` (daemon.py lines 295-319) on a platform with
SIGUSR1: read the registry, check liveness, send SIGUSR1. Returns the
registry afterwards, the outcome, and the boolean result. It never
deletes the registry file. -/
def toggleRecording (env : OSEnv) (f : RegFile) :
    RegFile × ToggleOutcome × Bool :=
  match readPidFile f with
  | none => (f, .notRunning, false)
  | some e =>
    if pidExists env e.pid = false then (f, .notRunning, false)
    else
      match env.usr1Sig e.pid with
      | .ok => (f, .sent, true)
      | .perm => (f, .permDenied, false)
      | .err => (f, .sendFailed, false)

inductive StopOutcome where
  | notRunning
  | refusedForeign
  | signalFailed
  | permDenied
  | stoppedGraceful
  | stoppedForced
deriving DecidableEq, Repr

structure StopResult where
  file : RegFile
  outcome : StopOutcome
  softSent : Bool
  hardSent : Bool
deriving DecidableEq, Repr

/-- `stop_daemon` (daemon.py lines 322-365): read the registry; refuse and
unlink if the pid's command line is inspectable and foreign; send SIGTERM
via `_terminate_process` — on a non-permission send failure log "leaving
PID file intact" and return, on a permission error leave the file intact
and return; on success poll `_pid_exists` up to 50 times, escalate to
`_force_kill` if the process never disappears, and unlink the registry
entry in either case (the `try`'s `else` clause). -/
def stopDaemon (env : OSEnv) (f : RegFile) : StopResult :=
  match readPidFile f with
  | none => ⟨f, .notRunning, false, false⟩
  | some e =>
    let foreign :=
      match env.cmdOf e.pid with
      | some c => !looksLikeClaudeStt c
      | none => false
    if foreign then ⟨.missing, .refusedForeign, false, false⟩
    else
      match env.termSig e.pid with
      | .err => ⟨f, .signalFailed, false, false⟩
      | .perm => ⟨f, .permDenied, false, false⟩
      | .ok =>
        match (List.range 50).find? (fun i => pollExists env i e.pid = false) with
        | some _ => ⟨.missing, .stoppedGraceful, true, false⟩
        | none => ⟨.missing, .stoppedForced, true, true⟩

/-! ### Claim theorems for the daemon control commands -/

/-- Claim C5: whenever the soft terminate (SIGTERM) is accepted,
`stop_daemon` removes the registry entry before returning whether or not
the process exited, and if the process never disappears during the
50-iteration polling wait it sends a hard terminate before returning. -/
theorem c5_stop_escalation (env : OSEnv) (f : RegFile) (e : RegEntry)
    (hread : readPidFile f = some e)
    (hcmd : ∀ c, env.cmdOf e.pid = some c → looksLikeClaudeStt c = true)
    (hterm : env.termSig e.pid = .ok) :
    (stopDaemon env f).file = RegFile.missing
    ∧ (stopDaemon env f).softSent = true
    ∧ ((∀ i, i < 50 → pollExists env i e.pid = true) →
        (stopDaemon env f).hardSent = true) := by
  have hforeign : (match env.cmdOf e.pid with
      | some c => !looksLikeClaudeStt c
      | none => false) = false := by
    cases hc : env.cmdOf e.pid with
    | none => rfl
    | some c => simp [hcmd c hc]
  cases hfind : (List.range 50).find?
      (fun i => !pollExists env i e.pid) with
  | none =>
    refine ⟨?_, ?_, fun _ => ?_⟩ <;>
      simp [stopDaemon, hread, hforeign, hterm, hfind]
  | some j =>
    have hj : pollExists env j e.pid = false := by
      have := List.find?_some hfind
      simpa using this
    have hjm : j < 50 := by
      have := List.mem_of_find?_eq_some hfind
      simpa [List.mem_range] using this
    refine ⟨?_, ?_, fun hall => ?_⟩
    · simp [stopDaemon, hread, hforeign, hterm, hfind]
    · simp [stopDaemon, hread, hforeign, hterm, hfind]
    · exact absurd (hall j hjm) (by simp [hj])

def envC5 : OSEnv :=
  ⟨fun _ => .ok, fun _ => none, fun _ => .ok, fun _ => .ok,
   fun _ _ => .ok, true⟩

def fileC5 : RegFile := writtenFile 77 "python -m claude_stt.daemon run" 0 "/tmp"

def entryC5 : RegEntry :=
  ⟨77, setPid [("pid", .vint 77),
    ("command", .vstr "python -m claude_stt.daemon run"),
    ("created_at", .vother), ("config_dir", .vstr "/tmp")] 77⟩

theorem c5_witness :
    (stopDaemon envC5 fileC5).file = RegFile.missing
    ∧ (stopDaemon envC5 fileC5).softSent = true
    ∧ (stopDaemon envC5 fileC5).hardSent = true := by
  have h := c5_stop_escalation envC5 fileC5 entryC5 (by decide)
    (fun c hc => Option.noConfusion hc) rfl
  exact ⟨h.1, h.2.1, h.2.2 (fun i _ => rfl)⟩

/-- Claim C4 (amended): if the soft-terminate send fails for a
non-permission reason, `stop_daemon` leaves the registry entry intact
("leaving PID file intact") and returns reporting the failure — it does
not treat the daemon as non-running and does not delete the entry; on a
permission error it likewise leaves the entry untouched and reports
failure. -/
theorem c4_stop_signal_failure_keeps_entry (env : OSEnv) (f : RegFile)
    (e : RegEntry) (hread : readPidFile f = some e)
    (hcmd : ∀ c, env.cmdOf e.pid = some c → looksLikeClaudeStt c = true) :
    (env.termSig e.pid = .err →
        stopDaemon env f = ⟨f, .signalFailed, false, false⟩)
    ∧ (env.termSig e.pid = .perm →
        stopDaemon env f = ⟨f, .permDenied, false, false⟩) := by
  have hforeign : (match env.cmdOf e.pid with
      | some c => !looksLikeClaudeStt c
      | none => false) = false := by
    cases hc : env.cmdOf e.pid with
    | none => rfl
    | some c => simp [hcmd c hc]
  constructor
  · intro hterm
    simp [stopDaemon, hread, hforeign, hterm]
  · intro hterm
    simp [stopDaemon, hread, hforeign, hterm]

def envC4 : OSEnv :=
  ⟨fun _ => .ok, fun _ => none, fun _ => .err, fun _ => .ok,
   fun _ _ => .ok, true⟩

def fileC4 : RegFile := writtenFile 88 "python -m claude_stt.daemon run" 0 "/tmp"

def entryC4 : RegEntry :=
  ⟨88, setPid [("pid", .vint 88),
    ("command", .vstr "python -m claude_stt.daemon run"),
    ("created_at", .vother), ("config_dir", .vstr "/tmp")] 88⟩

theorem c4_witness :
    stopDaemon envC4 fileC4
      = ⟨fileC4, .signalFailed, false, false⟩ :=
  (c4_stop_signal_failure_keeps_entry envC4 fileC4 entryC4 (by decide)
    (fun c hc => Option.noConfusion hc)).1 rfl

/-- Counterexample to C4 as stated: the target process is alive but
SIGTERM fails with a non-permission `OSError`; `stop_daemon` keeps the
registry file intact instead of deleting it. -/
theorem c4_counterexample :
    (stopDaemon envC4 fileC4).file = fileC4
    ∧ (stopDaemon envC4 fileC4).outcome = .signalFailed
    ∧ fileC4 ≠ RegFile.missing :=
  ⟨rfl, rfl, by decide⟩

/-- Claim C3 (amended): on a registry entry whose pid is not a live
process, `start` (through `is_daemon_running`) deletes the stale entry and
proceeds to start a daemon; but `stop` fails to signal and returns leaving
the registry file intact, and `toggle` reports "not running" and returns
false, also leaving the registry file intact — neither deletes it. -/
theorem c3_stale_entry_behavior (env : OSEnv) (f : RegFile) (e : RegEntry)
    (selfPid : Int) (cmd : String) (ts : Int) (dir : String)
    (hread : readPidFile f = some e)
    (hpid : 0 < e.pid)
    (hgone : env.probe e.pid = .gone)
    (hcmd : env.cmdOf e.pid = none)
    (hterm : env.termSig e.pid = .err) :
    isDaemonRunning env f = (false, RegFile.missing)
    ∧ startDaemon env f selfPid cmd ts dir
        = (writtenFile selfPid cmd ts dir, .started)
    ∧ stopDaemon env f = ⟨f, .signalFailed, false, false⟩
    ∧ toggleRecording env f = (f, .notRunning, false) := by
  have hnle : ¬ e.pid ≤ 0 := by omega
  have hex : pidExists env e.pid = false := by
    simp [pidExists, hgone, hnle]
  have hrun : isDaemonRunning env f = (false, RegFile.missing) := by
    simp [isDaemonRunning, hread, hnle, hex]
  refine ⟨hrun, ?_, ?_, ?_⟩
  · simp [startDaemon, hrun]
  · simp [stopDaemon, hread, hcmd, hterm]
  · simp [toggleRecording, hread, hex]

def deadEnv : OSEnv :=
  ⟨fun _ => .gone, fun _ => none, fun _ => .err, fun _ => .err,
   fun _ _ => .gone, true⟩

def staleFile : RegFile :=
  writtenFile 4242 "python -m claude_stt.daemon run" 0 "/tmp"

def staleEntry : RegEntry :=
  ⟨4242, setPid [("pid", .vint 4242),
    ("command", .vstr "python -m claude_stt.daemon run"),
    ("created_at", .vother), ("config_dir", .vstr "/tmp")] 4242⟩

theorem c3_witness :
    isDaemonRunning deadEnv staleFile = (false, RegFile.missing)
    ∧ startDaemon deadEnv staleFile 1 "python -m claude_stt.daemon run" 0 "/tmp"
        = (writtenFile 1 "python -m claude_stt.daemon run" 0 "/tmp", .started)
    ∧ stopDaemon deadEnv staleFile = ⟨staleFile, .signalFailed, false, false⟩
    ∧ toggleRecording deadEnv staleFile = (staleFile, .notRunning, false) :=
  c3_stale_entry_behavior deadEnv staleFile staleEntry 1
    "python -m claude_stt.daemon run" 0 "/tmp" (by decide) (by decide)
    rfl rfl rfl

/-- Counterexample to C3 as stated: on a stale entry (dead pid), `toggle`
and `stop` leave the registry file in place instead of deleting it. -/
theorem c3_counterexample :
    (toggleRecording deadEnv staleFile).1 = staleFile
    ∧ (stopDaemon deadEnv staleFile).file = staleFile
    ∧ staleFile ≠ RegFile.missing :=
  ⟨rfl, rfl, by decide⟩

/-! ## Hotkey-string parsing (`hotkey.py` lines 66-129)

`keyboard.HotKey.parse` is pynput library code; it is modeled here on the
named keys and single-character tokens that the listener's normalization
produces (numeric virtual-key tokens are outside the model). Everything
else (`_normalize_hotkey_string`, `_normalize_key`, `_parse_hotkey`, the
constructor checks) is embedded from the source. -/

/-- Python `s.split("+")` on characters: always returns at least one
(possibly empty) part. -/
def splitPlus : List Char → List (List Char)
  | [] => [[]]
  | c :: cs =>
    if c = '+' then [] :: splitPlus cs
    else
      match splitPlus cs with
      | [] => [[c]]
      | h :: t => (c :: h) :: t

/-- Python `s.strip()` on characters. -/
def wsTrim (cs : List Char) : List Char :=
  ((cs.dropWhile Char.isWhitespace).reverse.dropWhile
    Char.isWhitespace).reverse

/-- Python `s.lower()` on characters. -/
def lowerChars (cs : List Char) : List Char := cs.map Char.toLower

/-- Python `"+".join(parts)` on characters. -/
def joinPlus : List (List Char) → List Char
  | [] => []
  | [p] => p
  | p :: ps => p ++ '+' :: joinPlus ps

/-- The alias map of `_normalize_hotkey_string` (hotkey.py lines 100-113). -/
def keyAliasMap (p : List Char) : Option (List Char) :=
  if p = "ctrl".toList ∨ p = "control".toList then some "<ctrl>".toList
  else if p = "shift".toList then some "<shift>".toList
  else if p = "alt".toList then some "<alt>".toList
  else if p = "cmd".toList ∨ p = "command".toList then some "<cmd>".toList
  else if p = "space".toList then some "<space>".toList
  else if p = "enter".toList ∨ p = "return".toList then some "<enter>".toList
  else if p = "tab".toList then some "<tab>".toList
  else if p = "esc".toList ∨ p = "escape".toList then some "<esc>".toList
  else none

/-- Normalization of one `+`-separated token (hotkey.py lines 115-127). -/
def normalizePartC (p : List Char) : List Char :=
  let l := lowerChars p
  if l.head? = some '<' ∧ l.getLast? = some '>' then l
  else
    match keyAliasMap l with
    | some m => m
    | none =>
      if l.head? = some 'f' ∧ (l.drop 1) ≠ [] ∧ (l.drop 1).all Char.isDigit
      then '<' :: l ++ ['>']
      else l

/-- `_normalize_hotkey_string` (hotkey.py lines 95-129): split on `+`,
strip and drop empty parts, map each through the alias table, rejoin. -/
def normalizeHotkeyChars (cs : List Char) : List Char :=
  let parts := ((splitPlus cs).map wsTrim).filter (fun p => p ≠ [])
  match parts with
  | [] => cs
  | _ => joinPlus (parts.map normalizePartC)

/-- The pynput `Key` enum names recognized by the model of
`keyboard.HotKey.parse`. -/
def namedKeys : List (List Char × Key) :=
  [("ctrl".toList, .ctrl), ("ctrl_l".toList, .ctrl_l),
   ("ctrl_r".toList, .ctrl_r), ("shift".toList, .shift),
   ("shift_l".toList, .shift_l), ("shift_r".toList, .shift_r),
   ("alt".toList, .alt), ("alt_l".toList, .alt_l),
   ("alt_r".toList, .alt_r), ("cmd".toList, .cmd),
   ("cmd_l".toList, .cmd_l), ("cmd_r".toList, .cmd_r),
   ("space".toList, .space), ("enter".toList, .enter),
   ("tab".toList, .tab), ("esc".toList, .esc)]

def digitsVal (cs : List Char) : Nat :=
  cs.foldl (fun a d => a * 10 + (d.toNat - 48)) 0

/-- Lookup of a `<...>`-token's inner name: a named key or `f1`..`f20`. -/
def keyOfName (n : List Char) : Option Key :=
  match namedKeys.lookup n with
  | some k => some k
  | none =>
    match n with
    | 'f' :: rest =>
      if rest ≠ [] ∧ rest.all Char.isDigit then
        if 1 ≤ digitsVal rest ∧ digitsVal rest ≤ 20 then
          some (.f (digitsVal rest))
        else none
      else none
    | _ => none

/-- One token of `keyboard.HotKey.parse`: a single character becomes a
character key; a `<name>` token is looked up; anything else raises
`ValueError`. -/
def parsePartC (p : List Char) : Option Key :=
  match p with
  | [] => none
  | [c] => some (.char c)
  | _ =>
    if p.head? = some '<' ∧ p.getLast? = some '>' then
      keyOfName ((p.drop 1).dropLast)
    else none

def parseParts : List (List Char) → Option (List Key)
  | [] => some []
  | p :: ps =>
    match parsePartC p, parseParts ps with
    | some k, some ks => some (k :: ks)
    | _, _ => none

/-- Model of `keyboard.HotKey.parse`: split on `+` and parse each token;
any bad token fails the whole parse. -/
def hotKeyParse (cs : List Char) : Option (List Key) :=
  parseParts (splitPlus cs)

/-- `HotkeyListener._normalize_key` (hotkey.py lines 165-204) restricted
to the keys `HotKey.parse` can produce: character keys are case-folded
with space/newline mapped to the canonical keys, and left/right modifier
variants collapse to the side-independent token. -/
def normalizeKey : Key → Option Key
  | .char c =>
    if c = ' ' then some .space
    else if c = '\n' ∨ c = '\r' then some .enter
    else some (.char c.toLower)
  | .ctrl_l => some .ctrl
  | .ctrl_r => some .ctrl
  | .shift_l => some .shift
  | .shift_r => some .shift
  | .alt_l => some .alt
  | .alt_r => some .alt
  | .cmd_l => some .cmd
  | .cmd_r => some .cmd
  | k => some k

/-- The set-building loop of `_parse_hotkey` (hotkey.py lines 88-93). -/
def insKey (acc : Finset Key) (k : Key) : Finset Key :=
  match normalizeKey k with
  | some nk => insert nk acc
  | none => acc

def buildKeySet (ks : List Key) : Finset Key := ks.foldl insKey ∅

/-- `_parse_hotkey` (hotkey.py lines 70-93): reject a blank string, parse
the normalized string, normalize every parsed key into a set; a parse
error becomes a `HotkeyError` (modeled as `none`). -/
def parseHotkey (s : String) : Option (Finset Key) :=
  if isBlankStr s then none
  else
    match hotKeyParse (normalizeHotkeyChars s.toList) with
    | none => none
    | some ks => some (buildKeySet ks)

/-- The constructor's parse-and-check tail (hotkey.py lines 66-68): after
`_parse_hotkey`, an empty key set raises `HotkeyError`. Returns the
normalized key set on success. -/
def mkListener (s : String) : Option (Finset Key) :=
  match parseHotkey s with
  | none => none
  | some ks => if ks = ∅ then none else some ks

theorem normalizeKey_isSome (k : Key) : ∃ nk, normalizeKey k = some nk := by
  cases k with
  | char c =>
    unfold normalizeKey
    by_cases h1 : c = ' '
    · exact ⟨.space, by simp [h1]⟩
    · by_cases h2 : c = '\n' ∨ c = '\r'
      · exact ⟨.enter, by simp [h1, h2]⟩
      · exact ⟨.char c.toLower, by simp [h1, h2]⟩
  | _ => exact ⟨_, rfl⟩

theorem foldl_insKey_subset (ks : List Key) :
    ∀ acc : Finset Key, acc ⊆ ks.foldl insKey acc := by
  induction ks with
  | nil => intro acc; exact Finset.Subset.refl acc
  | cons k ks ih =>
    intro acc
    have h1 : acc ⊆ insKey acc k := by
      unfold insKey
      cases normalizeKey k with
      | none => exact Finset.Subset.refl acc
      | some nk => exact Finset.subset_insert nk acc
    exact h1.trans (ih (insKey acc k))

theorem buildKeySet_cons_ne_empty (k : Key) (ks : List Key) :
    buildKeySet (k :: ks) ≠ ∅ := by
  obtain ⟨nk, hnk⟩ := normalizeKey_isSome k
  have h1 : insKey ∅ k = insert nk ∅ := by simp [insKey, hnk]
  have h2 : insKey ∅ k ⊆ buildKeySet (k :: ks) :=
    foldl_insKey_subset ks (insKey ∅ k)
  intro hemp
  have hmem : nk ∈ buildKeySet (k :: ks) :=
    h2 (by rw [h1]; exact Finset.mem_insert_self nk ∅)
  rw [hemp] at hmem
  exact absurd hmem (Finset.not_mem_empty nk)

theorem splitPlus_ne_nil (cs : List Char) : splitPlus cs ≠ [] := by
  cases cs with
  | nil => simp [splitPlus]
  | cons c cs =>
    unfold splitPlus
    by_cases h : c = '+'
    · simp [h]
    · cases hr : splitPlus cs <;> simp [h, hr]

theorem parseParts_cons_ne_nil (p : List Char) (ps : List (List Char))
    (ks : List Key) (h : parseParts (p :: ps) = some ks) : ks ≠ [] := by
  cases hp : parsePartC p with
  | none => simp [parseParts, hp] at h
  | some k =>
    cases hps : parseParts ps with
    | none => simp [parseParts, hp, hps] at h
    | some l =>
      simp [parseParts, hp, hps] at h
      intro hnil
      rw [hnil] at h
      simp at h

theorem hotKeyParse_some_ne_nil (cs : List Char) (ks : List Key)
    (h : hotKeyParse cs = some ks) : ks ≠ [] := by
  unfold hotKeyParse at h
  cases hsplit : splitPlus cs with
  | nil => exact absurd hsplit (splitPlus_ne_nil cs)
  | cons p ps =>
    rw [hsplit] at h
    exact parseParts_cons_ne_nil p ps ks h

/-- Claim C8: listener construction fails on an empty hotkey string and on
an unrecognized token such as `ctrl+unknownkey` (and, defensively, on a
combination normalizing to an empty set); for every hotkey string that is
not blank and whose normalized form parses, construction succeeds with a
non-empty normalized key set. -/
theorem c8_construction_validation :
    mkListener "" = none
    ∧ mkListener "ctrl+unknownkey" = none
    ∧ (∀ (s : String) (ks : List Key), isBlankStr s = false →
        hotKeyParse (normalizeHotkeyChars s.toList) = some ks →
        ∃ fs : Finset Key, mkListener s = some fs ∧ fs ≠ ∅) := by
  refine ⟨rfl, by decide, fun s ks hb hparse => ?_⟩
  have hne : ks ≠ [] := hotKeyParse_some_ne_nil _ ks hparse
  cases ks with
  | nil => exact absurd rfl hne
  | cons k ks' =>
    refine ⟨buildKeySet (k :: ks'), ?_, buildKeySet_cons_ne_empty k ks'⟩
    simp only [String.toList] at hparse
    simp [mkListener, parseHotkey, hb, hparse, buildKeySet_cons_ne_empty k ks']

theorem c8_witness :
    (∃ fs : Finset Key, mkListener "ctrl+space" = some fs ∧ fs ≠ ∅)
    ∧ mkListener "ctrl+unknownkey" = none :=
  ⟨(c8_construction_validation).2.2 "ctrl+space" [Key.ctrl, Key.space]
      (by decide) (by decide),
   (c8_construction_validation).2.1⟩

end ClaudeStt
